import Mathlib

set_option maxHeartbeats 1000000

/- Verification of the black-lotus agent pipeline and artifact extraction
subsystem.  The Go sources are embedded shallowly: strings are Lean
`String`s, Go slices are Lean lists, and the line scanner of
`ParseArtifacts` is an explicit two-state machine stepped one line at a
time.  Character-level helpers stand in for the Go `strings` package
functions used by the source (`HasPrefix`, `Split`, `SplitN`, `TrimSpace`,
`TrimPrefix`), each faithful to the Go behaviour on the single-character
or ASCII separators the source uses. -/

/-- Embeds Go strings.HasPrefix: p is a character-wise leading substring of s. -/
def hasPre (p s : String) : Bool := p.data.isPrefixOf s.data

/-- Embeds Go strings.Split(s, "\n"): splits a character list at each
newline character; always returns at least one (possibly empty) field. -/
def splitNl : List Char → List String
  | [] => [""]
  | c :: cs =>
    if c = '\n' then "" :: splitNl cs
    else
      match splitNl cs with
      | [] => [String.mk [c]]
      | s :: rest => String.mk (c :: s.data) :: rest

/-- Splits a character list around the first colon: returns the characters
before it and, when a colon exists, the characters after it. -/
def breakColon : List Char → List Char × Option (List Char)
  | [] => ([], none)
  | c :: cs =>
    if c = ':' then ([], some cs)
    else
      match breakColon cs with
      | (p, r) => (c :: p, r)

/-- Embeds Go strings.SplitN(s, ":", 2): at most two fields, the second
being everything after the first colon. -/
def splitN2 (s : String) : List String :=
  match breakColon s.data with
  | (p, none) => [String.mk p]
  | (p, some rest) => [String.mk p, String.mk rest]

/-- Tests for the ASCII whitespace characters Go strings.TrimSpace removes
from the inputs arising here. -/
def isSpaceChar (c : Char) : Bool := c = ' ' || c = '\t' || c = '\n' || c = '\r'

/-- Embeds Go strings.TrimSpace: removes leading and trailing whitespace. -/
def trimSpace (s : String) : String :=
  String.mk (((s.data.dropWhile isSpaceChar).reverse.dropWhile isSpaceChar).reverse)

/-- Embeds Go strings.TrimPrefix(line, the 3-character fence delimiter). -/
def fenceRest (line : String) : String :=
  if hasPre "```" line then String.mk (line.data.drop 3) else line

/-- Artifact represents a file or piece of code produced by an agent
(struct Artifact of lotus-agents/agents/base.go). -/
structure Artifact where
  Filename : String
  Content : String
  Language : String
deriving DecidableEq

/-- State of the ParseArtifacts line scanner: the loop-carried variables
inBlock, lang, filename and blockLines of the Go source. -/
structure PState where
  inBlock : Bool
  lang : String
  filename : String
  blockLines : List String
deriving DecidableEq

/-- Scanner state at the start of ParseArtifacts: outside any block, with
empty language, filename and content accumulator. -/
def initState : PState := ⟨false, "", "", []⟩

/-- Records a filename hint: embeds the hint-detection body of
ParseArtifacts (lines beginning "// file:" or "# file:" set the filename
to everything after the first colon, trimmed; other lines leave it). -/
def hintOf (line : String) (filename : String) : String :=
  if hasPre "// file:" line || hasPre "# file:" line then
    match splitN2 line with
    | [_, rest] => trimSpace rest
    | _ => filename
  else filename

/-- Processes one line of the ParseArtifacts loop: returns the next
scanner state and the artifact emitted by this line, if any. -/
def step (st : PState) (line : String) : PState × Option Artifact :=
  if hasPre "```" line && !st.inBlock then
    (⟨true, fenceRest line, "", []⟩, none)
  else if line = "```" && st.inBlock then
    ({ st with inBlock := false },
     some ⟨st.filename, String.intercalate "\n" st.blockLines, st.lang⟩)
  else if st.inBlock then
    ({ st with filename := hintOf line st.filename,
               blockLines := st.blockLines ++ [line] }, none)
  else (st, none)

/-- Runs the ParseArtifacts loop over a list of lines from a given scanner
state, collecting the emitted artifacts in order. -/
def parseLines : List String → PState → List Artifact
  | [], _ => []
  | l :: ls, st =>
    match step st l with
    | (st2, some a) => a :: parseLines ls st2
    | (st2, none) => parseLines ls st2

/-- Scanner state after processing a list of lines from a given state. -/
def parseState : List String → PState → PState
  | [], st => st
  | l :: ls, st => parseState ls (step st l).1

/-- ParseArtifacts extracts code blocks from markdown-style output
(lotus-agents/agents/base.go). -/
def ParseArtifacts (output : String) : List Artifact :=
  parseLines (splitNl output.data) initState

/-- Runs a default-naming loop over the artifact list: embeds the Go
pattern `for i, art := range artifacts`, applying a per-agent body at
each index. -/
def renameLoop (body : Nat → Artifact → Artifact) : Nat → List Artifact → List Artifact
  | _, [] => []
  | i, a :: rest => body i a :: renameLoop body (i + 1) rest

/-- Loop body of MessagingAgent.Run default naming: hintless go artifacts
get filename "messaging_<i+1>.go". -/
def messagingBody (i : Nat) (a : Artifact) : Artifact :=
  if a.Filename = "" && a.Language = "go" then
    { a with Filename := "messaging_" ++ toString (i + 1) ++ ".go" }
  else a

/-- Loop body of APIDesignAgent.Run default naming: hintless go artifacts
get filename "api_<i+1>.go". -/
def apiBody (i : Nat) (a : Artifact) : Artifact :=
  if a.Filename = "" && a.Language = "go" then
    { a with Filename := "api_" ++ toString (i + 1) ++ ".go" }
  else a

/-- Loop body of TestingSecurityAgent.Run default naming: hintless go
artifacts get filename "test_<i+1>.go". -/
def testBody (i : Nat) (a : Artifact) : Artifact :=
  if a.Filename = "" && a.Language = "go" then
    { a with Filename := "test_" ++ toString (i + 1) ++ ".go" }
  else a

/-- Loop body of BackendDBAgent.Run default naming: hintless go artifacts
get "service_<i+1>.go", hintless sql artifacts get "migration_<i+1>.sql",
other languages are left untouched (Go switch with no default case). -/
def backendBody (i : Nat) (a : Artifact) : Artifact :=
  if a.Filename = "" then
    match a.Language with
    | "go" => { a with Filename := "service_" ++ toString (i + 1) ++ ".go" }
    | "sql" => { a with Filename := "migration_" ++ toString (i + 1) ++ ".sql" }
    | _ => a
  else a

/-- Default-naming pass of MessagingAgent.Run. -/
def messagingNames (arts : List Artifact) : List Artifact := renameLoop messagingBody 0 arts

/-- Default-naming pass of APIDesignAgent.Run. -/
def apiNames (arts : List Artifact) : List Artifact := renameLoop apiBody 0 arts

/-- Default-naming pass of TestingSecurityAgent.Run. -/
def testNames (arts : List Artifact) : List Artifact := renameLoop testBody 0 arts

/-- Default-naming pass of BackendDBAgent.Run. -/
def backendNames (arts : List Artifact) : List Artifact := renameLoop backendBody 0 arts

/-- AgentResult holds the output of an agent's work
(struct AgentResult of lotus-agents/agents/base.go; the Error field is
never populated by any Run shown in the sources). -/
structure AgentResult where
  AgentName : String
  Output : String
  Artifacts : List Artifact
  Err : Option String
deriving DecidableEq

/-- Common tail of every agent's Run after the prompt is built: the Chat
call outcome is passed in as a value; on error the stage returns nil plus
the error wrapped as "[<name>] failed: <err>" with no extraction; on
success it extracts artifacts from the output and applies the agent's
default-naming pass. -/
def stageRun (name : String) (naming : List Artifact → List Artifact)
    (chat : Except String String) : Except String AgentResult :=
  match chat with
  | .error err => .error ("[" ++ name ++ "] failed: " ++ err)
  | .ok output => .ok ⟨name, output, naming (ParseArtifacts output), none⟩

/-- ServiceDefinition describes the microservice to be built
(lotus-agents/config/service_definition.go). -/
structure ServiceDefinition where
  Name : String
  Description : String
  Language : String
  Entities : List String
  Operations : List String
  Integrations : List String
  ExtraRequirements : List String
deriving DecidableEq

/-- Renders one list section of ServiceDefinition.Prompt: header plus one
"  - <item>" line per item and a blank line, emitted only when the list
is non-empty (the Go `if len(...) > 0` guards). -/
def listSection (header : String) (items : List String) : String :=
  if items.length > 0 then
    header ++ String.join (items.map (fun e => "  - " ++ e ++ "\n")) ++ "\n"
  else ""

/-- Prompt builds a structured prompt string from the service definition
(ServiceDefinition.Prompt of service_definition.go): name, description
and language headers followed by the four optional list sections in their
fixed source order. -/
def ServiceDefinition.Prompt (s : ServiceDefinition) : String :=
  "Microservice Name: " ++ s.Name ++ "\n\n" ++
  ("Description:\n" ++ s.Description ++ "\n\n") ++
  ("Language: " ++ s.Language ++ "\n\n") ++
  listSection "Core Domain Entities:\n" s.Entities ++
  listSection "Key Business Operations:\n" s.Operations ++
  listSection "External Integrations:\n" s.Integrations ++
  listSection "Additional Requirements:\n" s.ExtraRequirements

/-- Modelled from the spec: the fixed character cap on context entries
(spec section 3, ExecutionContext; orchestrator/pipeline.go is not among
the provided sources). -/
def contextCap : Nat := 3000

/-- Modelled from the spec: truncation of a stage's raw output before it
is stored in the ExecutionContext (spec section 4.1 step 4: "Truncation
takes the first N characters"; orchestrator/pipeline.go is not among the
provided sources). -/
def truncateOutput (cap : Nat) (s : String) : String :=
  if s.length ≤ cap then s else String.mk (s.data.take cap)

/-- StageResult as the spec's data model describes it: stage name, full
raw output, and the artifacts extracted from it. -/
structure StageResult where
  stageName : String
  rawOutput : String
  artifacts : List Artifact
deriving DecidableEq

/-- Modelled from the spec: one configured pipeline stage
(orchestrator/pipeline.go is not among the provided sources) — a fixed
name, the context key it writes, and its generation outcome as a function
of the accumulated context. -/
structure StageSpec where
  name : String
  key : String
  gen : List (String × String) → Except String String

/-- Modelled from the spec: Pipeline.Run's sequential stage loop
(orchestrator/pipeline.go is not among the provided sources; spec section
4.1): run each stage on the current context; on error abort immediately
with the error wrapped with the stage's name and no result; on success
store the truncated output under the stage's key and accumulate its
StageResult. -/
def pipelineRun : List StageSpec → List (String × String) → Except String (List StageResult)
  | [], _ => .ok []
  | s :: rest, ctx =>
    match s.gen ctx with
    | .error e => .error ("[" ++ s.name ++ "] failed: " ++ e)
    | .ok out =>
      match pipelineRun rest (ctx ++ [(s.key, truncateOutput contextCap out)]) with
      | .error e => .error e
      | .ok results => .ok (⟨s.name, out, ParseArtifacts out⟩ :: results)

/-- Modelled from the spec: the context reached after a list of stages all
succeed (none when some stage in the list fails). -/
def contextAfter : List StageSpec → List (String × String) → Option (List (String × String))
  | [], ctx => some ctx
  | s :: rest, ctx =>
    match s.gen ctx with
    | .error _ => none
    | .ok out => contextAfter rest (ctx ++ [(s.key, truncateOutput contextCap out)])

/-- Concatenates a list of strings front to back, the order the Go code
accumulates its prompt string with repeated +=. -/
def concatAll (l : List String) : String := l.foldl (fun a b => a ++ b) ""

/-- Rendering of the service descriptor prompt as the spec words describe
it: sections emitted in the fixed order name, description, language,
entities, operations, integrations, extra requirements, with empty
sequences omitted. -/
def promptSpecRendering (s : ServiceDefinition) : String :=
  concatAll
    (["Microservice Name: " ++ s.Name ++ "\n\n",
      "Description:\n" ++ s.Description ++ "\n\n",
      "Language: " ++ s.Language ++ "\n\n"] ++
     (if s.Entities = [] then [] else
       ["Core Domain Entities:\n" ++
         String.join (s.Entities.map (fun e => "  - " ++ e ++ "\n")) ++ "\n"]) ++
     (if s.Operations = [] then [] else
       ["Key Business Operations:\n" ++
         String.join (s.Operations.map (fun o => "  - " ++ o ++ "\n")) ++ "\n"]) ++
     (if s.Integrations = [] then [] else
       ["External Integrations:\n" ++
         String.join (s.Integrations.map (fun i => "  - " ++ i ++ "\n")) ++ "\n"]) ++
     (if s.ExtraRequirements = [] then [] else
       ["Additional Requirements:\n" ++
         String.join (s.ExtraRequirements.map (fun r => "  - " ++ r ++ "\n")) ++ "\n"]))

/-- Raw output sample longer than the context cap, used to exercise the
truncation bound at a concrete input. -/
def bigOutput : String := String.mk (List.replicate 3001 'a')

/-- Length of a string is the length of its character list. -/
theorem str_length_data (s : String) : s.length = s.data.length := by
  cases s
  rfl

/-- Boolean prefix test implies an explicit append decomposition. -/
theorem isPre_exists {l₁ l₂ : List Char} (h : l₁.isPrefixOf l₂ = true) :
    ∃ t, l₂ = l₁ ++ t := by
  induction l₁ generalizing l₂ with
  | nil => exact ⟨l₂, rfl⟩
  | cons a as ih =>
    cases l₂ with
    | nil => simp at h
    | cons b bs =>
      rw [List.isPrefixOf_cons₂, Bool.and_eq_true, beq_iff_eq] at h
      obtain ⟨t, ht⟩ := ih h.2
      exact ⟨t, by rw [h.1, ht, List.cons_append]⟩

/-- Every list is a boolean prefix of itself followed by anything. -/
theorem isPre_append (l t : List Char) : l.isPrefixOf (l ++ t) = true := by
  induction l with
  | nil => simp
  | cons a as ih => rw [List.cons_append, List.isPrefixOf_cons₂]; simp [ih]

/-- Lists with different heads are not boolean prefixes of one another. -/
theorem isPre_ne_head {a b : Char} (h : ¬a = b) (as bs : List Char) :
    List.isPrefixOf (a :: as) (b :: bs) = false := by
  rw [List.isPrefixOf_cons₂]
  simp [h]

/-- Running the scanner over concatenated line lists processes the first
list and continues over the second from the state the first one reached. -/
theorem parseLines_append (xs ys : List String) (st : PState) :
    parseLines (xs ++ ys) st = parseLines xs st ++ parseLines ys (parseState xs st) := by
  induction xs generalizing st with
  | nil => simp [parseLines, parseState]
  | cons l ls ih =>
    rcases h : step st l with ⟨st2, oa⟩
    rcases oa with _ | a <;> simp [parseLines, parseState, h, ih]

/-- Once inside a block, lines that never include a bare closing fence
emit no artifact at all: the collected content is discarded. -/
theorem noClose_parseLines (ys : List String) (st : PState)
    (hin : st.inBlock = true) (hys : ∀ l ∈ ys, l ≠ "```") :
    parseLines ys st = [] := by
  induction ys generalizing st with
  | nil => rfl
  | cons l ls ih =>
    have hl : l ≠ "```" := hys l (List.mem_cons_self l ls)
    have hstep : step st l =
        ({ st with filename := hintOf l st.filename,
                   blockLines := st.blockLines ++ [l] }, none) := by
      unfold step
      simp [hin, hl]
    simp only [parseLines, hstep]
    exact ih _ (by simp [hin]) (fun x hx => hys x (List.mem_cons_of_mem l hx))

/-- Element i of a renaming pass started at index k is the original
element transformed by the loop body at index k + i. -/
theorem renameLoop_getElem (body : Nat → Artifact → Artifact) (k : Nat)
    (arts : List Artifact) (i : Nat) :
    (renameLoop body k arts)[i]? = (arts[i]?).map (body (k + i)) := by
  induction arts generalizing k i with
  | nil => simp [renameLoop]
  | cons a rest ih =>
    cases i with
    | zero => simp [renameLoop]
    | succ n =>
      have harith : k + 1 + n = k + (n + 1) := by omega
      simp [renameLoop, ih (k + 1) n, harith]

/-- Mapping a field a loop body preserves commutes with the renaming
pass. -/
theorem renameLoop_map (f : Artifact → String) (body : Nat → Artifact → Artifact)
    (hf : ∀ i a, f (body i a) = f a) (k : Nat) (arts : List Artifact) :
    (renameLoop body k arts).map f = arts.map f := by
  induction arts generalizing k with
  | nil => rfl
  | cons a rest ih => simp [renameLoop, hf, ih]

/-- Content is untouched by every agent's default-naming loop body. -/
theorem bodies_content (i : Nat) (a : Artifact) :
    (messagingBody i a).Content = a.Content ∧ (apiBody i a).Content = a.Content ∧
    (testBody i a).Content = a.Content ∧ (backendBody i a).Content = a.Content := by
  refine ⟨?_, ?_, ?_, ?_⟩
  · unfold messagingBody; split <;> rfl
  · unfold apiBody; split <;> rfl
  · unfold testBody; split <;> rfl
  · unfold backendBody; repeat' split
    all_goals rfl

/-- Language is untouched by every agent's default-naming loop body. -/
theorem bodies_language (i : Nat) (a : Artifact) :
    (messagingBody i a).Language = a.Language ∧ (apiBody i a).Language = a.Language ∧
    (testBody i a).Language = a.Language ∧ (backendBody i a).Language = a.Language := by
  refine ⟨?_, ?_, ?_, ?_⟩
  · unfold messagingBody; split <;> rfl
  · unfold apiBody; split <;> rfl
  · unfold testBody; split <;> rfl
  · unfold backendBody; repeat' split
    all_goals rfl

/-- Artifacts that already carry a filename are returned unchanged by
every agent's default-naming loop body. -/
theorem bodies_named (i : Nat) (a : Artifact) (h : a.Filename ≠ "") :
    messagingBody i a = a ∧ apiBody i a = a ∧ testBody i a = a ∧ backendBody i a = a := by
  refine ⟨?_, ?_, ?_, ?_⟩ <;> simp [messagingBody, apiBody, testBody, backendBody, h]

/-- Artifacts whose language is not go are returned unchanged by the
messaging, api and testing loop bodies. -/
theorem bodies_other_lang (i : Nat) (a : Artifact) (h : a.Language ≠ "go") :
    messagingBody i a = a ∧ apiBody i a = a ∧ testBody i a = a := by
  refine ⟨?_, ?_, ?_⟩ <;> simp [messagingBody, apiBody, testBody, h]

/-- Artifacts whose language is neither go nor sql are returned unchanged
by the backend loop body. -/
theorem backendBody_other_lang (i : Nat) (a : Artifact)
    (hg : a.Language ≠ "go") (hs : a.Language ≠ "sql") : backendBody i a = a := by
  unfold backendBody
  split
  · split <;> simp_all
  · rfl

/-- Claim C2: for the input "```go\n// file: x.go\nfunc f(){}\n```" the artifact
extractor returns exactly one Artifact, with filename "x.go", language
"go", and content "// file: x.go\nfunc f(){}": the hint line is kept, the
fence lines are excluded, and the block lines are newline-joined. -/
theorem extractor_round_trip :
    ParseArtifacts "```go\n// file: x.go\nfunc f()\x7b\x7d\n```" =
      [⟨"x.go", "// file: x.go\nfunc f()\x7b\x7d", "go"⟩] := by decide

/-- Claim C3: a fenced block opened but never closed before the input ends
contributes no Artifact: if the scanner is inside a block after the lines
xs and the remaining lines ys contain no bare closing fence, the whole
input yields exactly the artifacts of the blocks closed within xs, and
the content collected for the unclosed block is discarded. -/
theorem unclosed_block_dropped (xs ys : List String)
    (hopen : (parseState xs initState).inBlock = true)
    (hys : ∀ l ∈ ys, l ≠ "```") :
    parseLines (xs ++ ys) initState = parseLines xs initState := by
  rw [parseLines_append, noClose_parseLines ys _ hopen hys, List.append_nil]

/-- Witness for C3 at a concrete input: the second block is opened and
never closed, so only the first block's artifact is produced. -/
theorem unclosed_block_dropped_witness :
    parseLines (["```go", "a", "```", "```go"] ++ ["b"]) initState =
      parseLines ["```go", "a", "```", "```go"] initState ∧
    parseLines ["```go", "a", "```", "```go"] initState = [⟨"", "a", "go"⟩] := by
  refine ⟨unclosed_block_dropped ["```go", "a", "```", "```go"] ["b"] (by decide) (by decide), ?_⟩
  decide

/-- Claim C4: when the Chat call returns an error, every stage's Run returns
immediately with that error wrapped as "[<stage name>] failed: <err>",
produces no result value at all, and performs no artifact extraction or
default naming (the naming pass is arbitrary here and unused). -/
theorem stage_error_aborts (name : String) (naming : List Artifact → List Artifact)
    (err : String) :
    stageRun name naming (Except.error err) =
      Except.error ("[" ++ name ++ "] failed: " ++ err) := rfl

/-- Claim C5: the value stored in the ExecutionContext is the raw output when it
is at or under the cap, and otherwise is exactly the first-cap-characters
prefix of the raw output, whose length equals the cap exactly. -/
theorem truncation_bound (s : String) :
    (contextCap < s.length →
      (truncateOutput contextCap s).length = contextCap ∧
      truncateOutput contextCap s = String.mk (s.data.take contextCap)) ∧
    (s.length ≤ contextCap → truncateOutput contextCap s = s) := by
  constructor
  · intro h
    have hn : ¬s.length ≤ contextCap := not_le.mpr h
    refine ⟨?_, by simp only [truncateOutput]; rw [if_neg hn]⟩
    simp only [truncateOutput]
    rw [if_neg hn, String.length_mk, List.length_take]
    have hle : contextCap ≤ s.data.length := by
      rw [← str_length_data]
      omega
    omega
  · intro h
    simp only [truncateOutput]
    rw [if_pos h]

/-- Witness for C5 at concrete inputs: a 3001-character output is cut to
exactly 3000 characters, and a short output is stored unchanged. -/
theorem truncation_bound_witness :
    contextCap < bigOutput.length ∧
    (truncateOutput contextCap bigOutput).length = contextCap ∧
    truncateOutput contextCap bigOutput = String.mk (bigOutput.data.take contextCap) ∧
    "ok".length ≤ contextCap ∧ truncateOutput contextCap "ok" = "ok" := by
  have h1 : contextCap < bigOutput.length := by
    have hlen : bigOutput.length = 3001 := by
      rw [bigOutput, String.length_mk, List.length_replicate]
    rw [hlen, contextCap]
    omega
  have h2 : "ok".length ≤ contextCap := by decide
  exact ⟨h1, ((truncation_bound bigOutput).1 h1).1, ((truncation_bound bigOutput).1 h1).2,
    h2, (truncation_bound "ok").2 h2⟩

/-- Claim C6: when a stage fails after a successful prefix of stages, the
pipeline returns that stage's error wrapped with its name and produces no
run result at all: the results of the earlier stages are discarded and
the stages after the failing one (universally quantified here) are never
consulted. -/
theorem abort_on_failure (pre : List StageSpec) (s : StageSpec) (post : List StageSpec)
    (ctx ctx2 : List (String × String)) (e : String)
    (hpre : contextAfter pre ctx = some ctx2) (hgen : s.gen ctx2 = Except.error e) :
    pipelineRun (pre ++ s :: post) ctx =
      Except.error ("[" ++ s.name ++ "] failed: " ++ e) := by
  induction pre generalizing ctx with
  | nil =>
    simp only [contextAfter, Option.some.injEq] at hpre
    subst hpre
    simp [pipelineRun, hgen]
  | cons p ps ih =>
    cases hp : p.gen ctx with
    | error e2 => simp [contextAfter, hp] at hpre
    | ok out =>
      simp only [contextAfter, hp] at hpre
      simp [pipelineRun, hp, ih _ hpre]

/-- Witness for C6 at a concrete pipeline: stage B of three fails, the run
returns its wrapped error, and stage C contributes nothing. -/
theorem abort_on_failure_witness :
    pipelineRun [⟨"A", "a", fun _ => Except.ok "hello"⟩,
                 ⟨"B", "b", fun _ => Except.error "boom"⟩,
                 ⟨"C", "c", fun _ => Except.ok "later"⟩] [] =
      Except.error "[B] failed: boom" := by
  exact abort_on_failure [⟨"A", "a", fun _ => Except.ok "hello"⟩]
    ⟨"B", "b", fun _ => Except.error "boom"⟩
    [⟨"C", "c", fun _ => Except.ok "later"⟩]
    [] [("a", truncateOutput contextCap "hello")] "boom" rfl rfl

/-- Heads of the two recognized filename-hint lines and of the fence
delimiter differ, so a hint line is never a fence line. -/
theorem hint_not_fence {line : String} {rest : List Char}
    (h : line.data = "// file:".data ++ rest ∨ line.data = "# file:".data ++ rest) :
    hasPre "```" line = false ∧ line ≠ "```" := by
  rcases h with h | h <;>
  · constructor
    · show ("```".data).isPrefixOf line.data = false
      rw [h]
      exact isPre_ne_head (by decide) _ _
    · intro hEq
      rw [hEq] at h
      have hlen := congrArg List.length h
      simp [List.length_append] at hlen

/-- Computation of breakColon over a hint line: the characters before the
prefix's colon and everything after it. -/
theorem breakColon_hint (rest : List Char) :
    breakColon ('/' :: '/' :: ' ' :: 'f' :: 'i' :: 'l' :: 'e' :: ':' :: rest) =
      (['/', '/', ' ', 'f', 'i', 'l', 'e'], some rest) ∧
    breakColon ('#' :: ' ' :: 'f' :: 'i' :: 'l' :: 'e' :: ':' :: rest) =
      (['#', ' ', 'f', 'i', 'l', 'e'], some rest) := by
  constructor <;> simp [breakColon]

/-- Claim C7: while inside a block, a line carrying one of the two recognized
filename-hint prefixes sets the block's filename to everything after the
line's first colon trimmed of surrounding whitespace — overwriting
whatever filename was recorded before (the new state does not depend on
it) — and the hint line itself is still appended to the block's content. -/
theorem hint_line_sets_filename (st : PState) (line : String) (rest : List Char)
    (hin : st.inBlock = true)
    (hline : line.data = "// file:".data ++ rest ∨ line.data = "# file:".data ++ rest) :
    step st line =
      ({ st with filename := trimSpace (String.mk rest),
                 blockLines := st.blockLines ++ [line] }, none) := by
  obtain ⟨hf, hne⟩ := hint_not_fence hline
  have hhint : (hasPre "// file:" line || hasPre "# file:" line) = true := by
    rcases hline with h | h
    · have : hasPre "// file:" line = true := by
        show ("// file:".data).isPrefixOf line.data = true
        rw [h]
        exact isPre_append _ _
      simp [this]
    · have : hasPre "# file:" line = true := by
        show ("# file:".data).isPrefixOf line.data = true
        rw [h]
        exact isPre_append _ _
      simp [this]
  have hsplit : ∃ p0, splitN2 line = [p0, String.mk rest] := by
    rcases hline with h | h
    · exact ⟨String.mk ['/', '/', ' ', 'f', 'i', 'l', 'e'],
        by simp [splitN2, h, (breakColon_hint rest).1]⟩
    · exact ⟨String.mk ['#', ' ', 'f', 'i', 'l', 'e'],
        by simp [splitN2, h, (breakColon_hint rest).2]⟩
  obtain ⟨p0, hsplit⟩ := hsplit
  have hhintOf : hintOf line st.filename = trimSpace (String.mk rest) := by
    rw [hintOf, if_pos hhint, hsplit]
  unfold step
  simp [hin, hf, hne, hhintOf]

/-- Witness for C7 at a concrete state and hint line: the filename "old"
is overwritten with the trimmed hint value and the line is retained in
the block content. -/
theorem hint_line_sets_filename_witness :
    step ⟨true, "go", "old", ["l1"]⟩ "// file: x.go" =
      (⟨true, "go", "x.go", ["l1", "// file: x.go"]⟩, none) := by
  have h := hint_line_sets_filename ⟨true, "go", "old", ["l1"]⟩ "// file: x.go"
    (" x.go".data) rfl (Or.inl rfl)
  rw [h]
  decide

/-- Claim C8: while inside a block, a line beginning with the fence delimiter is
treated as ordinary content — appended to the block's lines with the
scanner still inside the block, so no nested block is opened — unless it
is exactly the bare delimiter, in which case it closes the block and
emits the accumulated artifact. -/
theorem nested_fence_is_content (st : PState) (line : String) (hin : st.inBlock = true) :
    (hasPre "```" line = true → line ≠ "```" →
      step st line =
        ({ st with filename := st.filename,
                   blockLines := st.blockLines ++ [line] }, none)) ∧
    (line = "```" →
      step st line =
        ({ st with inBlock := false },
         some ⟨st.filename, String.intercalate "\n" st.blockLines, st.lang⟩)) := by
  constructor
  · intro hf hne
    obtain ⟨t, ht⟩ := @isPre_exists ("```".data) line.data hf
    have h1 : hasPre "// file:" line = false := by
      show ("// file:".data).isPrefixOf line.data = false
      rw [ht]
      exact isPre_ne_head (by decide) _ _
    have h2 : hasPre "# file:" line = false := by
      show ("# file:".data).isPrefixOf line.data = false
      rw [ht]
      exact isPre_ne_head (by decide) _ _
    have hhintOf : hintOf line st.filename = st.filename := by
      rw [hintOf, if_neg]
      simp [h1, h2]
    unfold step
    simp [hin, hne, hhintOf]
  · intro hEq
    subst hEq
    unfold step
    simp [hin]

/-- Witness for C8 at a concrete state: the line "```go" inside a block is
appended as content with the block still open, while the bare "```"
closes the block and emits the artifact. -/
theorem nested_fence_is_content_witness :
    step ⟨true, "go", "f", ["a"]⟩ "```go" = (⟨true, "go", "f", ["a", "```go"]⟩, none) ∧
    step ⟨true, "go", "f", ["a"]⟩ "```" = (⟨false, "go", "f", ["a"]⟩, some ⟨"f", "a", "go"⟩) := by
  constructor
  · have h := (nested_fence_is_content ⟨true, "go", "f", ["a"]⟩ "```go" rfl).1
      (by decide) (by decide)
    rw [h]
    decide
  · have h := (nested_fence_is_content ⟨true, "go", "f", ["a"]⟩ "```" rfl).2 rfl
    rw [h]
    decide

/-- Claim C9: rendering a ServiceDefinition prompt is a deterministic function
of the descriptor's fields alone — here a pure function — and it equals
the spec-side rendering that emits the sections in the fixed order name,
description, language, entities, operations, integrations, extra
requirements, omitting the empty sequences. -/
theorem prompt_deterministic_rendering (s : ServiceDefinition) :
    s.Prompt = promptSpecRendering s := by
  unfold ServiceDefinition.Prompt promptSpecRendering listSection concatAll
  rcases hE : s.Entities with _ | ⟨e, es⟩ <;>
  rcases hO : s.Operations with _ | ⟨o, os⟩ <;>
  rcases hI : s.Integrations with _ | ⟨x, xs⟩ <;>
  rcases hR : s.ExtraRequirements with _ | ⟨r, rs⟩ <;>
  simp [String.empty_append]

/-- Claim C10: the post-extraction default-naming passes of the messaging,
backend and testing stages preserve the number, order, Content and
Language of the extracted artifacts, return every artifact that already
carries a filename hint completely unchanged, and also leave artifacts
unchanged when their language is outside the stage's mapped set. -/
theorem naming_pass_frame (arts : List Artifact) :
    ((messagingNames arts).map Artifact.Content = arts.map Artifact.Content ∧
     (messagingNames arts).map Artifact.Language = arts.map Artifact.Language ∧
     (backendNames arts).map Artifact.Content = arts.map Artifact.Content ∧
     (backendNames arts).map Artifact.Language = arts.map Artifact.Language ∧
     (testNames arts).map Artifact.Content = arts.map Artifact.Content ∧
     (testNames arts).map Artifact.Language = arts.map Artifact.Language) ∧
    (∀ (i : Nat) (a : Artifact), arts[i]? = some a →
      (a.Filename ≠ "" →
        (messagingNames arts)[i]? = some a ∧ (backendNames arts)[i]? = some a ∧
        (testNames arts)[i]? = some a) ∧
      (a.Language ≠ "go" →
        (messagingNames arts)[i]? = some a ∧ (testNames arts)[i]? = some a) ∧
      (a.Language ≠ "go" → a.Language ≠ "sql" → (backendNames arts)[i]? = some a)) := by
  constructor
  · exact ⟨renameLoop_map _ _ (fun i a => (bodies_content i a).1) 0 arts,
      renameLoop_map _ _ (fun i a => (bodies_language i a).1) 0 arts,
      renameLoop_map _ _ (fun i a => (bodies_content i a).2.2.2) 0 arts,
      renameLoop_map _ _ (fun i a => (bodies_language i a).2.2.2) 0 arts,
      renameLoop_map _ _ (fun i a => (bodies_content i a).2.2.1) 0 arts,
      renameLoop_map _ _ (fun i a => (bodies_language i a).2.2.1) 0 arts⟩
  · intro i a ha
    have hm := renameLoop_getElem messagingBody 0 arts i
    have hb := renameLoop_getElem backendBody 0 arts i
    have ht := renameLoop_getElem testBody 0 arts i
    rw [ha] at hm hb ht
    simp only [Option.map_some', Nat.zero_add] at hm hb ht
    refine ⟨fun hf => ?_, fun hg => ?_, fun hg hs => ?_⟩
    · obtain ⟨e1, e2, e3, e4⟩ := bodies_named i a hf
      exact ⟨by rw [messagingNames, hm, e1], by rw [backendNames, hb, e4],
        by rw [testNames, ht, e3]⟩
    · obtain ⟨e1, e2, e3⟩ := bodies_other_lang i a hg
      exact ⟨by rw [messagingNames, hm, e1], by rw [testNames, ht, e3]⟩
    · rw [backendNames, hb, backendBody_other_lang i a hg hs]

/-- Witness for C10 at a concrete list: a hinted go artifact and a
hintless yaml artifact pass through the messaging naming pass unchanged,
with contents and languages preserved. -/
theorem naming_pass_frame_witness :
    (messagingNames [⟨"x.go", "c1", "go"⟩, ⟨"", "c2", "yaml"⟩]).map Artifact.Content =
      [⟨"x.go", "c1", "go"⟩, ⟨"", "c2", "yaml"⟩].map Artifact.Content ∧
    (messagingNames [⟨"x.go", "c1", "go"⟩, ⟨"", "c2", "yaml"⟩])[0]? = some ⟨"x.go", "c1", "go"⟩ ∧
    (messagingNames [⟨"x.go", "c1", "go"⟩, ⟨"", "c2", "yaml"⟩])[1]? = some ⟨"", "c2", "yaml"⟩ := by
  refine ⟨(naming_pass_frame [⟨"x.go", "c1", "go"⟩, ⟨"", "c2", "yaml"⟩]).1.1, ?_, ?_⟩
  · exact (((naming_pass_frame [⟨"x.go", "c1", "go"⟩, ⟨"", "c2", "yaml"⟩]).2 0
      ⟨"x.go", "c1", "go"⟩ rfl).1 (by decide)).1
  · exact (((naming_pass_frame [⟨"x.go", "c1", "go"⟩, ⟨"", "c2", "yaml"⟩]).2 1
      ⟨"", "c2", "yaml"⟩ rfl).2.1 (by decide)).1

/-- Counterexample to C1 as stated: in a backend stage run whose first
artifact carries a filename hint, the second (first hintless) go artifact
is named "service_2.go" — the counter is the artifact's position among
all artifacts, not among the hintless ones, so it is not "service_1.go"
— and the hintless artifact with an empty language tag is left with an
empty filename rather than receiving a generic text extension name. -/
theorem default_naming_counterexample :
    backendNames (ParseArtifacts
        "```go\n// file: a.go\nx\n```\n```go\ny\n```\n```\nz\n```") =
      [⟨"a.go", "// file: a.go\nx", "go"⟩, ⟨"service_2.go", "y", "go"⟩, ⟨"", "z", ""⟩] ∧
    "service_2.go" ≠ "service_1.go" := by decide

/-- Claim C1 as amended: a hintless artifact at zero-based position i
receives the default name "<stage-family>_<i+1>.<ext>" — the counter
being its 1-based position among all of the stage's artifacts in
extraction order — when its language is in the stage's mapped set (go for
the api, messaging and testing stages; go and sql for the backend stage),
with the extension fixed by that language; a hintless artifact whose
language is outside a stage's mapped set keeps its empty filename in that
stage, so an api-stage hintless sql artifact stays unnamed there. -/
theorem default_naming_sequential (arts : List Artifact) (i : Nat) (a : Artifact)
    (ha : arts[i]? = some a) (hfn : a.Filename = "") :
    (a.Language = "go" →
      (backendNames arts)[i]? =
        some ⟨"service_" ++ toString (i + 1) ++ ".go", a.Content, a.Language⟩ ∧
      (apiNames arts)[i]? =
        some ⟨"api_" ++ toString (i + 1) ++ ".go", a.Content, a.Language⟩ ∧
      (messagingNames arts)[i]? =
        some ⟨"messaging_" ++ toString (i + 1) ++ ".go", a.Content, a.Language⟩ ∧
      (testNames arts)[i]? =
        some ⟨"test_" ++ toString (i + 1) ++ ".go", a.Content, a.Language⟩) ∧
    (a.Language = "sql" →
      (backendNames arts)[i]? =
        some ⟨"migration_" ++ toString (i + 1) ++ ".sql", a.Content, a.Language⟩) ∧
    (a.Language ≠ "go" →
      (apiNames arts)[i]? = some a ∧ (messagingNames arts)[i]? = some a ∧
      (testNames arts)[i]? = some a) ∧
    (a.Language ≠ "go" → a.Language ≠ "sql" → (backendNames arts)[i]? = some a) := by
  have hb := renameLoop_getElem backendBody 0 arts i
  have hap := renameLoop_getElem apiBody 0 arts i
  have hm := renameLoop_getElem messagingBody 0 arts i
  have ht := renameLoop_getElem testBody 0 arts i
  rw [ha] at hb hap hm ht
  simp only [Option.map_some', Nat.zero_add] at hb hap hm ht
  obtain ⟨fn, c, lg⟩ := a
  simp only at hfn
  subst hfn
  refine ⟨fun hg => ?_, fun hs => ?_, fun hg => ?_, fun hg hs => ?_⟩
  · simp only at hg
    subst hg
    refine ⟨?_, ?_, ?_, ?_⟩
    · rw [backendNames, hb]
      simp [backendBody]
    · rw [apiNames, hap]
      simp [apiBody]
    · rw [messagingNames, hm]
      simp [messagingBody]
    · rw [testNames, ht]
      simp [testBody]
  · simp only at hs
    subst hs
    rw [backendNames, hb]
    simp [backendBody]
  · obtain ⟨e1, e2, e3⟩ := bodies_other_lang i ⟨"", c, lg⟩ hg
    exact ⟨by rw [apiNames, hap, e2], by rw [messagingNames, hm, e1],
      by rw [testNames, ht, e3]⟩
  · rw [backendNames, hb, backendBody_other_lang i ⟨"", c, lg⟩ hg hs]

/-- Witness for the amended C1 at concrete lists: a single hintless go
artifact receives "service_1.go", "api_1.go", "messaging_1.go" and
"test_1.go" in the respective stages, a hintless sql artifact receives
"migration_1.sql" in the backend stage but keeps its empty filename in
the api stage, and a hintless yaml artifact keeps its empty filename in
the backend stage. -/
theorem default_naming_sequential_witness :
    (backendNames [⟨"", "c", "go"⟩])[0]? = some ⟨"service_1.go", "c", "go"⟩ ∧
    (apiNames [⟨"", "c", "go"⟩])[0]? = some ⟨"api_1.go", "c", "go"⟩ ∧
    (messagingNames [⟨"", "c", "go"⟩])[0]? = some ⟨"messaging_1.go", "c", "go"⟩ ∧
    (testNames [⟨"", "c", "go"⟩])[0]? = some ⟨"test_1.go", "c", "go"⟩ ∧
    (backendNames [⟨"", "c", "sql"⟩])[0]? = some ⟨"migration_1.sql", "c", "sql"⟩ ∧
    (apiNames [⟨"", "c", "sql"⟩])[0]? = some ⟨"", "c", "sql"⟩ ∧
    (backendNames [⟨"", "c", "yaml"⟩])[0]? = some ⟨"", "c", "yaml"⟩ := by
  have h1 := default_naming_sequential [⟨"", "c", "go"⟩] 0 ⟨"", "c", "go"⟩ rfl rfl
  have h2 := default_naming_sequential [⟨"", "c", "sql"⟩] 0 ⟨"", "c", "sql"⟩ rfl rfl
  have h3 := default_naming_sequential [⟨"", "c", "yaml"⟩] 0 ⟨"", "c", "yaml"⟩ rfl rfl
  exact ⟨(h1.1 rfl).1, (h1.1 rfl).2.1, (h1.1 rfl).2.2.1, (h1.1 rfl).2.2.2,
    h2.2.1 rfl, (h2.2.2.1 (by decide)).1, h3.2.2.2 (by decide) (by decide)⟩

/-- Witness for C4 at a concrete stage name and error: the wrapped error
string is produced and no result value exists. -/
theorem stage_error_aborts_witness :
    stageRun "API Design Agent" id (Except.error "quota") =
      Except.error "[API Design Agent] failed: quota" :=
  (stage_error_aborts "API Design Agent" id "quota").trans
    (congrArg Except.error (by decide))

/-- Witness for C9 at a concrete descriptor: the rendered prompt matches
the spec-side rendering and evaluates to the expected text, with the
empty sections omitted. -/
theorem prompt_deterministic_rendering_witness :
    ServiceDefinition.Prompt ⟨"inventory", "d", "Go", ["Product"], [], [], []⟩ =
      promptSpecRendering ⟨"inventory", "d", "Go", ["Product"], [], [], []⟩ ∧
    ServiceDefinition.Prompt ⟨"inventory", "d", "Go", ["Product"], [], [], []⟩ =
      "Microservice Name: inventory\n\nDescription:\nd\n\nLanguage: Go\n\nCore Domain Entities:\n  - Product\n\n" :=
  ⟨prompt_deterministic_rendering ⟨"inventory", "d", "Go", ["Product"], [], [], []⟩, by decide⟩
